import Mathlib

/-!
Shallow embedding of the bytom wallet UTXO indexer
(`blockchain/wallet/indexer.go`) and the query annotation projection
(`blockchain/query/annotated.go`), with proofs of the specified
properties of Confirmation (`BuildAccountUTXOs`), Reversal
(`ReverseAccountUTXOs`), ownership resolution (`loadAccountInfo`),
record persistence (`upsertConfirmedAccountOutputs`) and output
annotation (`buildAnnotatedOutput`).

Modelling conventions: `bc.Hash` values are `Nat`; byte strings
(control programs, serialized records, reference data) are `List Nat`;
the sha3-256 content hash, the account-registry reads, the account
existence check and `json.Marshal` of a UTXO record are external
collaborators and appear as fields of the `Wallet` environment; the
storage batch is a list of set/delete operations applied in order.
`json.Unmarshal` into the reused `account.CtrlProgram` variable merges
the fields present in the stored record into the variable's current
contents, which the embedding models with `RegCP` (each field optional)
and `mergeCP`.
-/

namespace Bytom

abbrev Hash := Nat
abbrev Bytes := List Nat

/-- Ledger entry variants of `tx.Entries`: a spend entry carrying its
`SpentOutputId`, an output entry carrying source/value/program data, or
some other variant (issuance, retirement, ...). -/
structure OutputEntry where
  sourceRef : Hash
  sourcePos : Nat
  assetId : Hash
  amount : Nat
  controlProgram : Bytes
  data : Hash
deriving DecidableEq, Repr

inductive Entry where
  | spend (spentOutputId : Hash)
  | output (o : OutputEntry)
  | other
deriving DecidableEq, Repr

/-- A legacy transaction output: asset/amount pair, control program and
attached reference data bytes. -/
structure TxOutput where
  assetId : Hash
  amount : Nat
  controlProgram : Bytes
  referenceData : Bytes
deriving DecidableEq, Repr

/-- A legacy transaction: its id, the entry ids of its inputs, its
outputs with their result entry ids, and the entry map `tx.Entries`. -/
structure Tx where
  id : Hash
  inputIDs : List Hash
  outputs : List TxOutput
  resultIds : List Hash
  entries : Hash → Option Entry

structure Block where
  transactions : List Tx

/-- `tx.Spend(inpID)`: succeeds exactly when the entry at `inpID` is a
spend entry, returning its `SpentOutputId`. -/
def Tx.spendOf (tx : Tx) (inpID : Hash) : Option Hash :=
  match tx.entries inpID with
  | some (.spend oid) => some oid
  | _ => none

/-- Database keys: the three key families `AccountUTXOKey`,
`AccountCPKey` and `AccountKey` have distinct prefixes. -/
inductive DBKey where
  | utxo (oid : Hash)
  | cp (h : Hash)
  | acct (id : String)
deriving DecidableEq, Repr

def AccountUTXOKey (oid : Hash) : DBKey := .utxo oid
def AccountCPKey (h : Hash) : DBKey := .cp h
def AccountKey (id : String) : DBKey := .acct id

/-- A batch operation: `(*batch).Set` or `(*batch).Delete`. -/
inductive Op where
  | set (k : DBKey) (v : Bytes)
  | del (k : DBKey)
deriving DecidableEq, Repr

/-- The UTXO index state: what the batch is applied to on commit. -/
abbrev IndexState := DBKey → Option Bytes

def applyOp (S : IndexState) : Op → IndexState
  | .set k v => fun k' => if k' = k then some v else S k'
  | .del k => fun k' => if k' = k then none else S k'

def applyOps (L : List Op) (S : IndexState) : IndexState :=
  L.foldl applyOp S

/-- `account.CtrlProgram` ownership metadata. -/
structure CtrlProgram where
  accountID : String
  keyIndex : Nat
  change : Bool
deriving DecidableEq, Repr

/-- The fields present in a stored registry record; `json.Unmarshal`
only assigns fields the record mentions. -/
structure RegCP where
  accountID : Option String
  keyIndex : Option Nat
  change : Option Bool
deriving DecidableEq, Repr

/-- A stored registry value: either bytes on which `json.Unmarshal`
returns an error, or a decodable record with its fields. The decoder
validates JSON syntax before decoding, so a syntactically invalid
value writes nothing; on a syntactically valid record with a
type-mismatched field it assigns the well-typed fields into the target
and then returns the type error. `bad p` carries the fields the failing
decode writes before erroring (all absent for a syntax error). -/
inductive RegVal where
  | bad (p : RegCP)
  | good (p : RegCP)
deriving DecidableEq, Repr

/-- `json.Unmarshal(bytes, &cp)` semantics on a decodable record:
fields present in the record overwrite `cp`, absent fields keep the
variable's previous contents. -/
def mergeCP (cp : CtrlProgram) (p : RegCP) : CtrlProgram :=
  { accountID := p.accountID.getD cp.accountID
    keyIndex := p.keyIndex.getD cp.keyIndex
    change := p.change.getD cp.change }

/-- The persisted `account.UTXO` record. -/
structure UTXO where
  outputID : Hash
  assetID : Hash
  amount : Nat
  accountID : String
  programIndex : Nat
  program : Bytes
  sourceID : Hash
  sourcePos : Nat
  refData : Hash
  change : Bool
deriving DecidableEq, Repr

/-- The wallet environment: the content hash of a script, the registry
read `w.DB.Get(AccountCPKey _)`, the account existence read
`w.DB.Get(AccountKey _)`, and `json.Marshal` of a persisted record. -/
structure Wallet where
  hashFn : Bytes → Hash
  cpGet : Hash → Option RegVal
  acctExists : String → Bool
  marshalUTXO : UTXO → Option Bytes

/-- Transient per-pass output data (`rawOutput` in indexer.go). -/
structure rawOutput where
  outputID : Hash
  assetId : Hash
  amount : Nat
  controlProgram : Bytes
  txHash : Hash
  outputIndex : Nat
  sourceID : Hash
  sourcePos : Nat
  refData : Hash
deriving DecidableEq, Repr

/-- `rawOutput` plus ownership annotation (`accountOutput`). -/
structure accountOutput where
  raw : rawOutput
  accountID : String
  keyIndex : Nat
  change : Bool
deriving DecidableEq, Repr

/-- `prevoutDBKeys`: the `SpentOutputId` of every input entry that is a
spend, across all transactions. -/
def prevoutDBKeys (txs : List Tx) : List Hash :=
  txs.flatMap fun tx => tx.inputIDs.filterMap tx.spendOf

/-- The `rawOutput` rebuilt for a spent output id when its entry is a
genuine output entry (the output index is left at its zero value, as in
the source). -/
def spentRawOf (tx : Tx) (oid : Hash) : Option rawOutput :=
  match tx.entries oid with
  | some (.output resOut) =>
      some { outputID := oid
             assetId := resOut.assetId
             amount := resOut.amount
             controlProgram := resOut.controlProgram
             txHash := tx.id
             outputIndex := 0
             sourceID := resOut.sourceRef
             sourcePos := resOut.sourcePos
             refData := resOut.data }
  | _ => none

/-- The spent-output loop body of `ReverseAccountUTXOs` for one input:
the input must be a spend and its spent output entry must be present as
an output entry. -/
def reverseOutOf (tx : Tx) (inpID : Hash) : Option rawOutput :=
  (tx.spendOf inpID).bind (spentRawOf tx)

/-- Spent-output extraction of `ReverseAccountUTXOs` over a block. -/
def reverseOuts (b : Block) : List rawOutput :=
  b.transactions.flatMap fun tx =>
    tx.inputIDs.filterMap (reverseOutOf tx)

/-- The `rawOutput` extracted for output `j` of a transaction when its
result entry is a genuine output entry; retirements (any non-output
entry variant) produce nothing. Asset, amount and control program come
from the legacy output; provenance comes from the entry. -/
def createdRawOf (tx : Tx) (j : Nat) (out : TxOutput) (rid : Hash) :
    Option rawOutput :=
  match tx.entries rid with
  | some (.output resOut) =>
      some { outputID := rid
             assetId := out.assetId
             amount := out.amount
             controlProgram := out.controlProgram
             txHash := tx.id
             outputIndex := j
             sourceID := resOut.sourceRef
             sourcePos := resOut.sourcePos
             refData := resOut.data }
  | _ => none

/-- The created-output loop of `BuildAccountUTXOs` over one
transaction: `for j, out := range tx.Outputs` paired with
`tx.ResultIds[j]`. -/
def buildTxOuts (tx : Tx) : Nat → List (TxOutput × Hash) → List rawOutput
  | _, [] => []
  | j, (out, rid) :: rest =>
      match createdRawOf tx j out rid with
      | some o => o :: buildTxOuts tx (j + 1) rest
      | none => buildTxOuts tx (j + 1) rest

/-- Created-output extraction of `BuildAccountUTXOs` over a block. -/
def buildOuts (b : Block) : List rawOutput :=
  b.transactions.flatMap fun tx =>
    buildTxOuts tx 0 (tx.outputs.zip tx.resultIds)

/-- Distinct scripts in first-occurrence order, skipping the ones
already seen. -/
def dedupFirstAux : List Bytes → List Bytes → List Bytes
  | [], _ => []
  | s :: rest, seen =>
      if s ∈ seen then dedupFirstAux rest seen
      else s :: dedupFirstAux rest (s :: seen)

/-- Distinct scripts in first-occurrence order: the iteration domain of
the `outsByScript` grouping map. -/
def dedupFirst (l : List Bytes) : List Bytes := dedupFirstAux l []

/-- One iteration of the `loadAccountInfo` script loop: registry lookup
at the script hash, decode into the running `cp` variable, account
existence check, then annotate that script's group. Returns the
variable's contents after the iteration together with the annotated
outputs it contributes. A failing decode contributes nothing but still
writes its well-typed fields into the reused variable before the loop
continues. -/
def loadStep (w : Wallet) (outs : List rawOutput) (cp : CtrlProgram)
    (s : Bytes) : CtrlProgram × List accountOutput :=
  match w.cpGet (w.hashFn s) with
  | none => (cp, [])
  | some (.bad p) => (mergeCP cp p, [])
  | some (.good p) =>
      let cp' := mergeCP cp p
      if w.acctExists cp'.accountID then
        (cp', (outs.filter fun o => o.controlProgram = s).map fun o =>
          { raw := o
            accountID := cp'.accountID
            keyIndex := cp'.keyIndex
            change := cp'.change })
      else (cp', [])

def loadLoop (w : Wallet) (outs : List rawOutput) :
    List Bytes → CtrlProgram → List accountOutput
  | [], _ => []
  | s :: ss, cp =>
      (loadStep w outs cp s).2 ++ loadLoop w outs ss (loadStep w outs cp s).1

/-- `loadAccountInfo`: group outputs by raw script bytes, resolve each
distinct script once through the registry, and annotate; outputs whose
script misses the registry, fails to decode, or refers to a
no-longer-existing account are dropped. The `cp` decode variable is
declared once and reused across iterations, as in the source. -/
def loadAccountInfo (w : Wallet) (outs : List rawOutput) : List accountOutput :=
  loadLoop w outs (dedupFirst (outs.map fun o => o.controlProgram))
    { accountID := "", keyIndex := 0, change := false }

/-- The persisted record built from an annotated output. -/
def utxoOf (a : accountOutput) : UTXO :=
  { outputID := a.raw.outputID
    assetID := a.raw.assetId
    amount := a.raw.amount
    accountID := a.accountID
    programIndex := a.keyIndex
    program := a.raw.controlProgram
    sourceID := a.raw.sourceID
    sourcePos := a.raw.sourcePos
    refData := a.raw.refData
    change := a.change }

/-- `upsertConfirmedAccountOutputs`: serialize each record and set it
under `AccountUTXOKey(OutputID)`. On the first serialization failure
the loop stops: the operations already issued stay in the batch and the
error is returned. -/
def upsertConfirmedAccountOutputs (w : Wallet) :
    List accountOutput → List Op × Option String
  | [] => ([], none)
  | a :: rest =>
      match w.marshalUTXO (utxoOf a) with
      | none => ([], some "failed marshal accountutxo")
      | some rawU =>
          ((Op.set (AccountUTXOKey a.raw.outputID) rawU) ::
            (upsertConfirmedAccountOutputs w rest).1,
           (upsertConfirmedAccountOutputs w rest).2)

/-- `BuildAccountUTXOs` (Confirmation): unconditionally delete every
spent output key, then upsert the ownership-annotated created outputs.
An upsert error is logged and swallowed; the operations issued before
the failure remain in the batch. -/
def BuildAccountUTXOs (w : Wallet) (b : Block) : List Op :=
  ((prevoutDBKeys b.transactions).map fun oid => Op.del (AccountUTXOKey oid)) ++
    (upsertConfirmedAccountOutputs w (loadAccountInfo w (buildOuts b))).1

/-- The delete the reversal issues for one created output: present
exactly when the result entry is a genuine output entry (retirements
are skipped). -/
def delOpOf (tx : Tx) (rid : Hash) : Option Op :=
  match tx.entries rid with
  | some (.output _) => some (Op.del (AccountUTXOKey rid))
  | _ => none

/-- The delete-created loop of `ReverseAccountUTXOs` over one
transaction. -/
def reverseDelTx (tx : Tx) (l : List (TxOutput × Hash)) : List Op :=
  l.filterMap fun p => delOpOf tx p.2

/-- The delete-created stage of `ReverseAccountUTXOs` over a block. -/
def reverseDeleteOps (b : Block) : List Op :=
  b.transactions.flatMap fun tx =>
    reverseDelTx tx (tx.outputs.zip tx.resultIds)

/-- `ReverseAccountUTXOs` (Reversal): restore the block's spent outputs
through ownership resolution and upsert, then delete every output the
block created. If the upsert stage fails, the failure is logged and the
function returns without issuing the deletes; the function itself
returns no error. -/
def ReverseAccountUTXOs (w : Wallet) (b : Block) : List Op :=
  match upsertConfirmedAccountOutputs w (loadAccountInfo w (reverseOuts b)) with
  | (ops, some _) => ops
  | (ops, none) => ops ++ reverseDeleteOps b

/-! Query annotation projection (`blockchain/query/annotated.go`). -/

/-- Environment of the annotation projection: the external
`vmutil.IsUnspendable` script predicate and the success predicate of
`json.Unmarshal` used by `IsValidJSON`. -/
structure QueryEnv where
  isUnspendable : Bytes → Bool
  jsonOK : Bytes → Bool

/-- The `emptyJSONObject` sentinel, the bytes of the two-character
empty-object text. -/
def emptyJSONObject : Bytes := [123, 125]

/-- `IsValidJSON`: reference data is valid when `json.Unmarshal`
succeeds on it. -/
def IsValidJSON (env : QueryEnv) (b : Bytes) : Bool := env.jsonOK b

/-- The fields of `AnnotatedOutput` the projection fills from the
transaction (asset alias/definition/tags and account fields are filled
by later stages and omitted). -/
structure AnnotatedOutput where
  type : String
  outputID : Hash
  position : Nat
  assetID : Hash
  amount : Nat
  controlProgram : Bytes
  referenceData : Bytes
deriving DecidableEq, Repr

/-- `buildAnnotatedOutput`: project output `idx` of a transaction,
substituting the empty-object sentinel for invalid reference data and
classifying the output as retire/control by the unspendable-script
predicate. `none` models the out-of-range panic, which callers never
trigger. -/
def buildAnnotatedOutput (env : QueryEnv) (tx : Tx) (idx : Nat) :
    Option AnnotatedOutput :=
  match tx.outputs.get? idx, tx.resultIds.get? idx with
  | some orig, some outid =>
      some { type := if env.isUnspendable orig.controlProgram
                     then "retire" else "control"
             outputID := outid
             position := idx
             assetID := orig.assetId
             amount := orig.amount
             controlProgram := orig.controlProgram
             referenceData := if IsValidJSON env orig.referenceData
                              then orig.referenceData else emptyJSONObject }
  | _, _ => none

/-- Whether the entry at an id is a genuine output entry (the boolean
form of the extraction guard). -/
def isOutputEntry (tx : Tx) (oid : Hash) : Bool :=
  match tx.entries oid with
  | some (.output _) => true
  | _ => false

/-! Concrete fixtures used to evaluate the development on closed
inputs. Scripts hash by their first byte; account `A` owns script
`[1]` with key index 5; script `[2]`'s registry record omits the key
index and change fields; records marshal to their amount byte. -/

def oX : rawOutput :=
  { outputID := 101, assetId := 7, amount := 10, controlProgram := [1]
    txHash := 1, outputIndex := 0, sourceID := 0, sourcePos := 0
    refData := 0 }

def oX2 : rawOutput := { oX with outputID := 103 }

def oY : rawOutput :=
  { outputID := 102, assetId := 7, amount := 20, controlProgram := [2]
    txHash := 1, outputIndex := 1, sourceID := 0, sourcePos := 0
    refData := 0 }

def wC10 : Wallet :=
  { hashFn := fun s => s.headD 0
    cpGet := fun h =>
      if h = 1 then
        some (.good { accountID := some "A", keyIndex := some 5
                      change := some true })
      else if h = 2 then
        some (.good { accountID := some "B", keyIndex := none
                      change := none })
      else none
    acctExists := fun _ => true
    marshalUTXO := fun u => some [u.amount] }

/-- A registry value whose `AccountID` field is type-mismatched while
its `KeyIndex` field decodes: the failing decode writes key index 9
before erroring. -/
def badLeakVal : RegVal :=
  .bad { accountID := none, keyIndex := some 9, change := none }

/-- A syntactically invalid registry value: the failing decode writes
nothing. -/
def badEmptyVal : RegVal :=
  .bad { accountID := none, keyIndex := none, change := none }

/-- Like `wC10`, but script hash 1 holds `badLeakVal`. -/
def wBadLeak : Wallet :=
  { wC10 with cpGet := fun h =>
      if h = 1 then some badLeakVal else wC10.cpGet h }

/-- Like `wC10`, but script hash 2 holds `badEmptyVal`. -/
def wBadEmpty : Wallet :=
  { wC10 with cpGet := fun h =>
      if h = 2 then some badEmptyVal else wC10.cpGet h }

/-- A transaction spending output 20 (an output of amount 7 under
script `[1]`) through input entry 10, creating nothing. -/
def txC1 : Tx :=
  { id := 1
    inputIDs := [10]
    outputs := []
    resultIds := []
    entries := fun h =>
      if h = 10 then some (.spend 20)
      else if h = 20 then
        some (.output { sourceRef := 3, sourcePos := 0, assetId := 7
                        amount := 7, controlProgram := [1], data := 4 })
      else none }

def bC1 : Block := { transactions := [txC1] }

def wC1 : Wallet :=
  { hashFn := fun s => s.headD 0
    cpGet := fun h =>
      if h = 1 then
        some (.good { accountID := some "A", keyIndex := some 5
                      change := some true })
      else none
    acctExists := fun a => a = "A"
    marshalUTXO := fun u => some [u.amount] }

/-- A pre-block index holding a stale record at the spent key 20. -/
def SC1 : IndexState :=
  fun k => if k = AccountUTXOKey 20 then some [99] else none

/-- A transaction spending output 20 and creating output 30 under the
tracked script `[1]`. -/
def txRT : Tx :=
  { id := 1
    inputIDs := [10]
    outputs := [{ assetId := 7, amount := 8, controlProgram := [1]
                  referenceData := [] }]
    resultIds := [30]
    entries := fun h =>
      if h = 10 then some (.spend 20)
      else if h = 20 then
        some (.output { sourceRef := 3, sourcePos := 0, assetId := 7
                        amount := 7, controlProgram := [1], data := 4 })
      else if h = 30 then
        some (.output { sourceRef := 1, sourcePos := 0, assetId := 7
                        amount := 8, controlProgram := [1], data := 4 })
      else none }

def bRT : Block := { transactions := [txRT] }

/-- A pre-block index agreeing with the ledger: the spent output's
record matches its re-derived serialization and the created key is
absent. -/
def SRT : IndexState :=
  fun k => if k = AccountUTXOKey 20 then some [7] else none

def wFail : Wallet := { wC1 with marshalUTXO := fun _ => none }

def wMiss : Wallet := { wC1 with cpGet := fun _ => none }

/-- A block creating an output under the untracked script `[9]`. -/
def bC4 : Block :=
  { transactions :=
      [{ id := 2
         inputIDs := []
         outputs := [{ assetId := 7, amount := 3, controlProgram := [9]
                       referenceData := [] }]
         resultIds := [200]
         entries := fun h =>
           if h = 200 then
             some (.output { sourceRef := 2, sourcePos := 0, assetId := 7
                             amount := 3, controlProgram := [9]
                             data := 0 })
           else none }] }

/-- A block whose only result entry is a retirement, under the tracked
script `[1]`. -/
def bC6 : Block :=
  { transactions :=
      [{ id := 3
         inputIDs := []
         outputs := [{ assetId := 7, amount := 4, controlProgram := [1]
                       referenceData := [] }]
         resultIds := [300]
         entries := fun h => if h = 300 then some .other else none }] }

def envQ : QueryEnv :=
  { isUnspendable := fun s => s.headD 0 = 106
    jsonOK := fun s => s ≠ [] }

def txQ : Tx :=
  { id := 2
    inputIDs := []
    outputs := [{ assetId := 7, amount := 3, controlProgram := [106]
                  referenceData := [] }]
    resultIds := [55]
    entries := fun _ => none }

/-! Generic facts about applying a batch of operations. -/

def opKey : Op → DBKey
  | .set k _ => k
  | .del k => k

theorem applyOp_ne {S : IndexState} {op : Op} {k : DBKey}
    (h : opKey op ≠ k) : applyOp S op k = S k := by
  cases op with
  | set k0 v =>
      simp only [opKey] at h
      show (if k = k0 then some v else S k) = S k
      exact if_neg fun hk => h hk.symm
  | del k0 =>
      simp only [opKey] at h
      show (if k = k0 then none else S k) = S k
      exact if_neg fun hk => h hk.symm

theorem applyOps_append (L1 L2 : List Op) (S : IndexState) :
    applyOps (L1 ++ L2) S = applyOps L2 (applyOps L1 S) := by
  simp [applyOps, List.foldl_append]

theorem applyOps_untouched {L : List Op} {k : DBKey}
    (h : ∀ op ∈ L, opKey op ≠ k) :
    ∀ S : IndexState, applyOps L S k = S k := by
  induction L with
  | nil => intro S; rfl
  | cons op rest ih =>
      intro S
      have hrest : ∀ op' ∈ rest, opKey op' ≠ k := fun op' hm =>
        h op' (List.mem_cons_of_mem _ hm)
      calc applyOps (op :: rest) S k
          = applyOps rest (applyOp S op) k := rfl
        _ = applyOp S op k := ih hrest _
        _ = S k := applyOp_ne (h op (List.mem_cons_self _ _))

theorem applyOps_touched_const {k : DBKey} :
    ∀ {L : List Op}, (∃ op0 ∈ L, opKey op0 = k) →
      ∀ S1 S2 : IndexState, applyOps L S1 k = applyOps L S2 k := by
  intro L
  induction L with
  | nil => rintro ⟨op0, hmem, -⟩; cases hmem
  | cons op rest ih =>
      rintro ⟨op0, hmem, hk⟩ S1 S2
      by_cases hrest : ∃ op' ∈ rest, opKey op' = k
      · exact ih hrest (applyOp S1 op) (applyOp S2 op)
      · have hop : opKey op = k := by
          rcases List.mem_cons.mp hmem with h | h
          · exact h ▸ hk
          · exact absurd ⟨op0, h, hk⟩ hrest
        have hno : ∀ op' ∈ rest, opKey op' ≠ k := fun op' hm' hk' =>
          hrest ⟨op', hm', hk'⟩
        have e1 : applyOps (op :: rest) S1 k = applyOp S1 op k :=
          applyOps_untouched hno _
        have e2 : applyOps (op :: rest) S2 k = applyOp S2 op k :=
          applyOps_untouched hno _
        rw [e1, e2]
        cases op with
        | set k0 v =>
            simp only [opKey] at hop
            subst hop
            simp [applyOp]
        | del k0 =>
            simp only [opKey] at hop
            subst hop
            simp [applyOp]

theorem applyOps_idem (L : List Op) (S : IndexState) (k : DBKey) :
    applyOps L (applyOps L S) k = applyOps L S k := by
  by_cases h : ∃ op ∈ L, opKey op = k
  · exact applyOps_touched_const h _ _
  · have hno : ∀ op ∈ L, opKey op ≠ k := fun op hm hk => h ⟨op, hm, hk⟩
    rw [applyOps_untouched hno]

theorem applyOps_sets_last {L : List Op} {k : DBKey} {v : Bytes}
    (huniq : ∀ op ∈ L, opKey op = k → op = .set k v)
    (hmem : Op.set k v ∈ L) :
    ∀ S : IndexState, applyOps L S k = some v := by
  induction L with
  | nil => cases hmem
  | cons op rest ih =>
      intro S
      by_cases hrest : Op.set k v ∈ rest
      · exact ih (fun op' hm' => huniq op' (List.mem_cons_of_mem _ hm')) hrest _
      · have hop : op = Op.set k v := by
          rcases List.mem_cons.mp hmem with h | h
          · exact h.symm
          · exact absurd h hrest
        have hno : ∀ op' ∈ rest, opKey op' ≠ k := by
          intro op' hm' hk'
          exact hrest ((huniq op' (List.mem_cons_of_mem _ hm') hk') ▸ hm')
        calc applyOps (op :: rest) S k
            = applyOp S op k := applyOps_untouched hno _
          _ = some v := by subst hop; simp [applyOp]

theorem applyOps_dels_none {L : List Op}
    (hall : ∀ op ∈ L, ∃ k', op = .del k') {k : DBKey} :
    ∀ S : IndexState, S k = none → applyOps L S k = none := by
  induction L with
  | nil => intro S h; exact h
  | cons op rest ih =>
      intro S h
      obtain ⟨k', hk'⟩ := hall op (List.mem_cons_self _ _)
      have : applyOp S op k = none := by
        subst hk'; by_cases hkk : k = k' <;> simp [applyOp, hkk, h]
      exact ih (fun op' hm' => hall op' (List.mem_cons_of_mem _ hm')) _ this

theorem applyOps_del_mem_none {L : List Op}
    (hall : ∀ op ∈ L, ∃ k', op = .del k') {k : DBKey}
    (hmem : Op.del k ∈ L) :
    ∀ S : IndexState, applyOps L S k = none := by
  induction L with
  | nil => cases hmem
  | cons op rest ih =>
      intro S
      by_cases hrest : Op.del k ∈ rest
      · exact ih (fun op' hm' => hall op' (List.mem_cons_of_mem _ hm')) hrest _
      · have hop : op = Op.del k := by
          rcases List.mem_cons.mp hmem with h | h
          · exact h.symm
          · exact absurd h hrest
        subst hop
        refine applyOps_dels_none
          (fun op' hm' => hall op' (List.mem_cons_of_mem _ hm')) _ ?h
        simp [applyOp]

/-! Structural facts about the grouping and resolution pass. -/

theorem mem_dedupFirstAux {s : Bytes} :
    ∀ {l seen : List Bytes}, s ∈ dedupFirstAux l seen ↔ s ∈ l ∧ s ∉ seen := by
  intro l
  induction l with
  | nil => intro seen; simp [dedupFirstAux]
  | cons t rest ih =>
      intro seen
      simp only [dedupFirstAux]
      by_cases ht : t ∈ seen
      · rw [if_pos ht, ih]
        constructor
        · rintro ⟨hm, hns⟩; exact ⟨List.mem_cons_of_mem _ hm, hns⟩
        · rintro ⟨hm, hns⟩
          rcases List.mem_cons.mp hm with he | hm'
          · exact absurd (he ▸ ht) hns
          · exact ⟨hm', hns⟩
      · rw [if_neg ht]
        constructor
        · intro h
          rcases List.mem_cons.mp h with he | hm'
          · exact ⟨he ▸ List.mem_cons_self _ _, he ▸ ht⟩
          · obtain ⟨hm, hns⟩ := ih.mp hm'
            exact ⟨List.mem_cons_of_mem _ hm,
              fun hs => hns (List.mem_cons_of_mem _ hs)⟩
        · rintro ⟨hm, hns⟩
          rcases List.mem_cons.mp hm with he | hm'
          · exact he ▸ List.mem_cons_self _ _
          · by_cases hts : s = t
            · exact hts ▸ List.mem_cons_self _ _
            · refine List.mem_cons_of_mem _ (ih.mpr ⟨hm', ?hns⟩)
              intro hs
              rcases List.mem_cons.mp hs with h | h
              · exact hts h
              · exact hns h

theorem mem_dedupFirst {s : Bytes} {l : List Bytes} :
    s ∈ dedupFirst l ↔ s ∈ l := by
  simp [dedupFirst, mem_dedupFirstAux]

theorem nodup_dedupFirstAux :
    ∀ (l seen : List Bytes), (dedupFirstAux l seen).Nodup := by
  intro l
  induction l with
  | nil => intro seen; simp [dedupFirstAux]
  | cons t rest ih =>
      intro seen
      simp only [dedupFirstAux]
      by_cases ht : t ∈ seen
      · rw [if_pos ht]; exact ih seen
      · rw [if_neg ht]
        refine List.nodup_cons.mpr ⟨?ha, ih (t :: seen)⟩
        intro hmem
        exact (mem_dedupFirstAux.mp hmem).2 (List.mem_cons_self _ _)

theorem nodup_dedupFirst (l : List Bytes) : (dedupFirst l).Nodup :=
  nodup_dedupFirstAux l []

/-- Every output a loop iteration contributes comes from the input set
and belongs to the iteration's script group. -/
theorem loadStep_raw {w : Wallet} {outs : List rawOutput}
    {cp : CtrlProgram} {s : Bytes} {a : accountOutput}
    (h : a ∈ (loadStep w outs cp s).2) :
    a.raw ∈ outs ∧ a.raw.controlProgram = s := by
  unfold loadStep at h
  rcases hcp : w.cpGet (w.hashFn s) with - | v
  · rw [hcp] at h; cases h
  · cases v with
    | bad q => rw [hcp] at h; cases h
    | good p =>
        rw [hcp] at h
        by_cases hex : w.acctExists (mergeCP cp p).accountID
        · simp only [if_pos hex, List.mem_map] at h
          obtain ⟨o, ho, rfl⟩ := h
          exact ⟨(List.mem_filter.mp ho).1, by
            simpa using (List.mem_filter.mp ho).2⟩
        · simp only [if_neg hex] at h; cases h

/-- A loop iteration only contributes outputs when the registry lookup
for its script returned decodable metadata. -/
theorem loadStep_cpGet {w : Wallet} {outs : List rawOutput}
    {cp : CtrlProgram} {s : Bytes} {a : accountOutput}
    (h : a ∈ (loadStep w outs cp s).2) :
    ∃ p, w.cpGet (w.hashFn s) = some (.good p) := by
  unfold loadStep at h
  rcases hcp : w.cpGet (w.hashFn s) with - | v
  · rw [hcp] at h; cases h
  · cases v with
    | bad q => rw [hcp] at h; cases h
    | good p => exact ⟨p, rfl⟩

/-- All outputs one loop iteration contributes carry the same ownership
metadata. -/
theorem loadStep_meta {w : Wallet} {outs : List rawOutput}
    {cp : CtrlProgram} {s : Bytes} {a1 a2 : accountOutput}
    (h1 : a1 ∈ (loadStep w outs cp s).2)
    (h2 : a2 ∈ (loadStep w outs cp s).2) :
    a1.accountID = a2.accountID ∧ a1.keyIndex = a2.keyIndex ∧
      a1.change = a2.change := by
  unfold loadStep at h1 h2
  rcases hcp : w.cpGet (w.hashFn s) with - | v
  · rw [hcp] at h1; cases h1
  · cases v with
    | bad q => rw [hcp] at h1; cases h1
    | good p =>
        rw [hcp] at h1 h2
        by_cases hex : w.acctExists (mergeCP cp p).accountID
        · simp only [if_pos hex, List.mem_map] at h1 h2
          obtain ⟨o1, -, rfl⟩ := h1
          obtain ⟨o2, -, rfl⟩ := h2
          exact ⟨rfl, rfl, rfl⟩
        · simp only [if_neg hex] at h1; cases h1

/-- A loop iteration whose registry record specifies all three metadata
fields: the decode variable's previous contents are fully overwritten,
so the group's annotation does not depend on the running state. -/
theorem loadStep_complete {w : Wallet} {outs : List rawOutput}
    {cp : CtrlProgram} {s : Bytes} {aid : String} {ki : Nat} {ch : Bool}
    (h : w.cpGet (w.hashFn s) =
      some (.good { accountID := some aid, keyIndex := some ki,
                    change := some ch })) :
    loadStep w outs cp s =
      ({ accountID := aid, keyIndex := ki, change := ch },
       if w.acctExists aid then
         (outs.filter fun o => o.controlProgram = s).map fun o =>
           { raw := o, accountID := aid, keyIndex := ki, change := ch }
       else []) := by
  unfold loadStep
  rw [h]
  by_cases hex : w.acctExists aid
  · simp [mergeCP, hex]
  · simp [mergeCP, hex]

/-- An iteration whose registry lookup misses leaves the decode
variable untouched and contributes nothing. -/
theorem loadStep_miss {w : Wallet} {outs : List rawOutput}
    {cp : CtrlProgram} {s : Bytes}
    (h : w.cpGet (w.hashFn s) = none) :
    loadStep w outs cp s = (cp, []) := by
  unfold loadStep
  rw [h]

/-- An iteration whose registry value fails to decode contributes
nothing, but the fields the decoder wrote before erroring persist in
the reused decode variable. -/
theorem loadStep_bad {w : Wallet} {outs : List rawOutput}
    {cp : CtrlProgram} {s : Bytes} {p : RegCP}
    (h : w.cpGet (w.hashFn s) = some (.bad p)) :
    loadStep w outs cp s = (mergeCP cp p, []) := by
  unfold loadStep
  rw [h]

/-- Merging a decode that wrote no fields is the identity. -/
theorem mergeCP_empty (cp : CtrlProgram) :
    mergeCP cp { accountID := none, keyIndex := none, change := none }
      = cp := rfl

theorem mem_loadLoop_raw {w : Wallet} {outs : List rawOutput} :
    ∀ {ss : List Bytes} {cp : CtrlProgram} {a : accountOutput},
      a ∈ loadLoop w outs ss cp →
        a.raw ∈ outs ∧ a.raw.controlProgram ∈ ss := by
  intro ss
  induction ss with
  | nil => intro cp a h; cases h
  | cons s rest ih =>
      intro cp a h
      rcases List.mem_append.mp h with h | h
      · obtain ⟨hm, hs⟩ := loadStep_raw h
        exact ⟨hm, hs ▸ List.mem_cons_self _ _⟩
      · obtain ⟨hm, hs⟩ := ih h
        exact ⟨hm, List.mem_cons_of_mem _ hs⟩

theorem mem_loadLoop_cpGet {w : Wallet} {outs : List rawOutput} :
    ∀ {ss : List Bytes} {cp : CtrlProgram} {a : accountOutput},
      a ∈ loadLoop w outs ss cp →
        ∃ p, w.cpGet (w.hashFn a.raw.controlProgram) = some (.good p) := by
  intro ss
  induction ss with
  | nil => intro cp a h; cases h
  | cons s rest ih =>
      intro cp a h
      rcases List.mem_append.mp h with h | h
      · obtain ⟨-, hs⟩ := loadStep_raw h
        exact hs ▸ loadStep_cpGet h
      · exact ih h

/-- Over a duplicate-free script list, two contributed outputs sharing
a script carry the same ownership metadata: the script was resolved at
a single iteration. -/
theorem loadLoop_meta_nodup {w : Wallet} {outs : List rawOutput} :
    ∀ {ss : List Bytes} {cp : CtrlProgram}, ss.Nodup →
      ∀ {a1 a2 : accountOutput}, a1 ∈ loadLoop w outs ss cp →
        a2 ∈ loadLoop w outs ss cp →
        a1.raw.controlProgram = a2.raw.controlProgram →
        a1.accountID = a2.accountID ∧ a1.keyIndex = a2.keyIndex ∧
          a1.change = a2.change := by
  intro ss
  induction ss with
  | nil => intro cp _ a1 a2 h1; cases h1
  | cons s rest ih =>
      intro cp hnd a1 a2 h1 h2 hsc
      obtain ⟨hs, hnd'⟩ := List.nodup_cons.mp hnd
      rcases List.mem_append.mp h1 with h1 | h1 <;>
        rcases List.mem_append.mp h2 with h2 | h2
      · exact loadStep_meta h1 h2
      · exact absurd (hsc ▸ (mem_loadLoop_raw h2).2)
          ((loadStep_raw h1).2 ▸ hs)
      · exact absurd ((loadStep_raw h2).2 ▸ hsc ▸ (mem_loadLoop_raw h1).2) hs
      · exact ih hnd' h1 h2 hsc

/-- When a script's registry record specifies all three metadata
fields, every contributed output carrying that script is annotated with
exactly those fields, whatever else the loop processed. -/
theorem loadLoop_complete_meta {w : Wallet} {outs : List rawOutput}
    {s : Bytes} {aid : String} {ki : Nat} {ch : Bool}
    (hreg : w.cpGet (w.hashFn s) =
      some (.good { accountID := some aid, keyIndex := some ki,
                    change := some ch })) :
    ∀ {ss : List Bytes} {cp : CtrlProgram} {a : accountOutput},
      a ∈ loadLoop w outs ss cp → a.raw.controlProgram = s →
        a.accountID = aid ∧ a.keyIndex = ki ∧ a.change = ch := by
  intro ss
  induction ss with
  | nil => intro cp a h; cases h
  | cons s' rest ih =>
      intro cp a h hsc
      rcases List.mem_append.mp h with h | h
      · have hs' : s' = s := (loadStep_raw h).2 ▸ hsc
        subst hs'
        rw [loadStep_complete hreg] at h
        by_cases hex : w.acctExists aid
        · rw [if_pos hex] at h
          obtain ⟨o, -, rfl⟩ := List.mem_map.mp h
          exact ⟨rfl, rfl, rfl⟩
        · rw [if_neg hex] at h
          cases h
      · exact ih h hsc

/-- When additionally the account exists, every input output carrying
that script is contributed with exactly those fields. -/
theorem loadLoop_complete_mem {w : Wallet} {outs : List rawOutput}
    {s : Bytes} {aid : String} {ki : Nat} {ch : Bool}
    (hreg : w.cpGet (w.hashFn s) =
      some (.good { accountID := some aid, keyIndex := some ki,
                    change := some ch }))
    (hex : w.acctExists aid = true) :
    ∀ {ss : List Bytes} {cp : CtrlProgram}, s ∈ ss →
      ∀ {o : rawOutput}, o ∈ outs → o.controlProgram = s →
        ({ raw := o, accountID := aid, keyIndex := ki, change := ch } :
          accountOutput) ∈ loadLoop w outs ss cp := by
  intro ss
  induction ss with
  | nil => intro cp h; cases h
  | cons s' rest ih =>
      intro cp hmem o ho hsc
      rcases List.mem_cons.mp hmem with he | hm
      · subst he
        refine List.mem_append.mpr (Or.inl ?_)
        rw [loadStep_complete hreg, if_pos hex]
        exact List.mem_map.mpr
          ⟨o, List.mem_filter.mpr ⟨ho, by simp [hsc]⟩, rfl⟩
      · exact List.mem_append.mpr (Or.inr (ih hm ho hsc))

/-- A registry value on which the decoder fails without writing any
field behaves exactly as a lookup miss: deleting it from the registry
view changes nothing. (A failing decode that writes fields does not, as
the C8 counterexample shows.) -/
theorem loadLoop_bad_empty_eq_miss {w : Wallet} {outs : List rawOutput}
    {h0 : Hash}
    (hbad : w.cpGet h0 =
      some (.bad { accountID := none, keyIndex := none, change := none })) :
    ∀ (ss : List Bytes) (cp : CtrlProgram),
      loadLoop w outs ss cp =
        loadLoop { w with cpGet := fun h => if h = h0 then none
                                            else w.cpGet h }
          outs ss cp := by
  intro ss
  induction ss with
  | nil => intro cp; rfl
  | cons s rest ih =>
      intro cp
      set w' : Wallet :=
        { w with cpGet := fun h => if h = h0 then none else w.cpGet h }
        with hw'
      by_cases hh : w.hashFn s = h0
      · have e1 : loadStep w outs cp s = (cp, []) := by
          rw [loadStep_bad (hh ▸ hbad), mergeCP_empty]
        have e2 : loadStep w' outs cp s = (cp, []) := by
          refine loadStep_miss ?_
          show (if w.hashFn s = h0 then none else w.cpGet (w.hashFn s)) = none
          rw [if_pos hh]
        show (loadStep w outs cp s).2 ++ _ = (loadStep w' outs cp s).2 ++ _
        rw [e1, e2, ih cp]
      · have hg : w'.cpGet (w'.hashFn s) = w.cpGet (w.hashFn s) := by
          show (if w.hashFn s = h0 then none else w.cpGet (w.hashFn s)) = _
          rw [if_neg hh]
        have estep : loadStep w' outs cp s = loadStep w outs cp s := by
          unfold loadStep
          rw [hg]
        show (loadStep w outs cp s).2 ++ _ = (loadStep w' outs cp s).2 ++ _
        rw [estep, ih]

/-- Outputs drawn from the input set and annotated: membership facts
lifted to `loadAccountInfo`. -/
theorem mem_loadAccountInfo_raw {w : Wallet} {outs : List rawOutput}
    {a : accountOutput} (h : a ∈ loadAccountInfo w outs) :
    a.raw ∈ outs :=
  (mem_loadLoop_raw h).1

theorem mem_loadAccountInfo_cpGet {w : Wallet} {outs : List rawOutput}
    {a : accountOutput} (h : a ∈ loadAccountInfo w outs) :
    ∃ p, w.cpGet (w.hashFn a.raw.controlProgram) = some (.good p) :=
  mem_loadLoop_cpGet h

/-! Structural facts about record persistence and output extraction. -/

/-- Every operation the upsert stage issues is a set of a marshalled
record under the key of its output. -/
theorem mem_upsert_ops {w : Wallet} :
    ∀ {l : List accountOutput} {op : Op},
      op ∈ (upsertConfirmedAccountOutputs w l).1 →
        ∃ a ∈ l, ∃ v, w.marshalUTXO (utxoOf a) = some v ∧
          op = .set (AccountUTXOKey a.raw.outputID) v := by
  intro l
  induction l with
  | nil => intro op h; cases h
  | cons a rest ih =>
      intro op h
      unfold upsertConfirmedAccountOutputs at h
      rcases hm : w.marshalUTXO (utxoOf a) with - | v
      · rw [hm] at h; cases h
      · rw [hm] at h
        rcases List.mem_cons.mp h with he | hmem
        · exact ⟨a, List.mem_cons_self _ _, v, hm, he⟩
        · obtain ⟨a', ha', v', hv', rfl⟩ := ih hmem
          exact ⟨a', List.mem_cons_of_mem _ ha', v', hv', rfl⟩

/-- When every record marshals, the upsert stage reports no error. -/
theorem upsert_err_none {w : Wallet} :
    ∀ {l : List accountOutput},
      (∀ a ∈ l, (w.marshalUTXO (utxoOf a)).isSome) →
        (upsertConfirmedAccountOutputs w l).2 = none := by
  intro l
  induction l with
  | nil => intro _; rfl
  | cons a rest ih =>
      intro h
      unfold upsertConfirmedAccountOutputs
      rcases hm : w.marshalUTXO (utxoOf a) with - | v
      · exact absurd (hm ▸ h a (List.mem_cons_self _ _)) (by simp)
      · exact ih fun a' ha' => h a' (List.mem_cons_of_mem _ ha')

/-- When every record marshals, each output's set operation is issued. -/
theorem upsert_set_mem {w : Wallet} :
    ∀ {l : List accountOutput},
      (∀ a' ∈ l, (w.marshalUTXO (utxoOf a')).isSome) →
        ∀ {a : accountOutput} {v : Bytes}, a ∈ l →
          w.marshalUTXO (utxoOf a) = some v →
            Op.set (AccountUTXOKey a.raw.outputID) v ∈
              (upsertConfirmedAccountOutputs w l).1 := by
  intro l
  induction l with
  | nil => intro _ a v h; cases h
  | cons a0 rest ih =>
      intro htot a v hmem hv
      unfold upsertConfirmedAccountOutputs
      rcases hm : w.marshalUTXO (utxoOf a0) with - | v0
      · exact absurd (hm ▸ htot a0 (List.mem_cons_self _ _)) (by simp)
      · rcases List.mem_cons.mp hmem with he | hmem'
        · subst he
          rw [hv] at hm
          exact hm ▸ List.mem_cons_self _ _
        · exact List.mem_cons_of_mem _
            (ih (fun a' ha' => htot a' (List.mem_cons_of_mem _ ha')) hmem' hv)

/-- Characterization of the rebuilt spent output. -/
theorem spentRawOf_some {tx : Tx} {oid : Hash} {o : rawOutput}
    (h : spentRawOf tx oid = some o) :
    o.outputID = oid ∧ ∃ e, tx.entries oid = some (.output e) := by
  unfold spentRawOf at h
  rcases he : tx.entries oid with - | e
  · rw [he] at h; cases h
  · cases e with
    | spend oid' => rw [he] at h; cases h
    | other => rw [he] at h; cases h
    | output resOut =>
        rw [he] at h
        cases h
        exact ⟨rfl, resOut, by first | exact he | rfl⟩

/-- Characterization of the extracted created output. -/
theorem createdRawOf_some {tx : Tx} {j : Nat} {out : TxOutput}
    {rid : Hash} {o : rawOutput}
    (h : createdRawOf tx j out rid = some o) :
    o.outputID = rid ∧ o.controlProgram = out.controlProgram ∧
      ∃ e, tx.entries rid = some (.output e) := by
  unfold createdRawOf at h
  rcases he : tx.entries rid with - | e
  · rw [he] at h; cases h
  · cases e with
    | spend oid' => rw [he] at h; cases h
    | other => rw [he] at h; cases h
    | output resOut =>
        rw [he] at h
        cases h
        exact ⟨rfl, rfl, resOut, by first | exact he | rfl⟩

/-- A genuine output entry always produces its reversal delete. -/
theorem delOpOf_of_entry {tx : Tx} {rid : Hash} {e : OutputEntry}
    (he : tx.entries rid = some (.output e)) :
    delOpOf tx rid = some (Op.del (AccountUTXOKey rid)) := by
  unfold delOpOf
  rw [he]

/-- Every delete the delete-created stage produces is keyed by the
output id it was produced for. -/
theorem delOpOf_shape {tx : Tx} {rid : Hash} {op : Op}
    (h : delOpOf tx rid = some op) :
    op = Op.del (AccountUTXOKey rid) := by
  unfold delOpOf at h
  rcases he : tx.entries rid with - | e
  · rw [he] at h; cases h
  · cases e with
    | spend oid' => rw [he] at h; cases h
    | other => rw [he] at h; cases h
    | output resOut =>
        rw [he] at h
        cases h
        rfl

/-- Every extracted created output sits at a position of the zipped
output list, its id carries a genuine output entry, and its delete
appears in the reversal's delete-created stage. -/
theorem mem_buildTxOuts {tx : Tx} :
    ∀ {l : List (TxOutput × Hash)} {j : Nat} {o : rawOutput},
      o ∈ buildTxOuts tx j l →
        (∃ p ∈ l, o.outputID = p.2 ∧
           o.controlProgram = p.1.controlProgram) ∧
        (∃ e, tx.entries o.outputID = some (.output e)) ∧
        Op.del (AccountUTXOKey o.outputID) ∈ reverseDelTx tx l := by
  intro l
  induction l with
  | nil => intro j o h; cases h
  | cons p rest ih =>
      intro j o h
      obtain ⟨out, rid⟩ := p
      unfold buildTxOuts at h
      rcases hc : createdRawOf tx j out rid with - | o0
      · rw [hc] at h
        obtain ⟨⟨p', hp', h1, h2⟩, hent, hdel⟩ := ih h
        refine ⟨⟨p', List.mem_cons_of_mem _ hp', h1, h2⟩, hent, ?_⟩
        obtain ⟨q, hq, hf⟩ := List.mem_filterMap.mp hdel
        exact List.mem_filterMap.mpr ⟨q, List.mem_cons_of_mem _ hq, hf⟩
      · rw [hc] at h
        rcases List.mem_cons.mp h with he0 | hmem
        · subst he0
          obtain ⟨h1, h2, e, he⟩ := createdRawOf_some hc
          refine ⟨⟨(out, rid), List.mem_cons_self _ _, h1, h2⟩,
            ⟨e, by rw [h1]; exact he⟩, ?_⟩
          refine List.mem_filterMap.mpr ⟨(out, rid), List.mem_cons_self _ _, ?_⟩
          rw [h1]
          exact delOpOf_of_entry he
        · obtain ⟨⟨p', hp', h1, h2⟩, hent, hdel⟩ := ih hmem
          refine ⟨⟨p', List.mem_cons_of_mem _ hp', h1, h2⟩, hent, ?_⟩
          obtain ⟨q, hq, hf⟩ := List.mem_filterMap.mp hdel
          exact List.mem_filterMap.mpr ⟨q, List.mem_cons_of_mem _ hq, hf⟩

/-- Every operation of the delete-created stage is a delete keyed by a
result id of the zipped output list. -/
theorem mem_reverseDelTx {tx : Tx} {l : List (TxOutput × Hash)} {op : Op}
    (h : op ∈ reverseDelTx tx l) :
    ∃ p ∈ l, op = .del (AccountUTXOKey p.2) := by
  obtain ⟨p, hp, hf⟩ := List.mem_filterMap.mp h
  exact ⟨p, hp, delOpOf_shape hf⟩

/-- A spent-output id characterization of `prevoutDBKeys`. -/
theorem mem_prevoutDBKeys {txs : List Tx} {oid : Hash} :
    oid ∈ prevoutDBKeys txs ↔
      ∃ tx ∈ txs, ∃ inpID ∈ tx.inputIDs, tx.spendOf inpID = some oid := by
  simp [prevoutDBKeys, List.mem_flatMap, List.mem_filterMap]

/-- Every restored spent output's id is among the block's spent keys. -/
theorem mem_reverseOuts_prevout {b : Block} {o : rawOutput}
    (h : o ∈ reverseOuts b) :
    o.outputID ∈ prevoutDBKeys b.transactions := by
  simp only [reverseOuts, List.mem_flatMap, List.mem_filterMap] at h
  obtain ⟨tx, htx, inpID, hinp, hf⟩ := h
  unfold reverseOutOf at hf
  rcases hs : tx.spendOf inpID with - | oid
  · rw [hs] at hf; cases hf
  · rw [hs] at hf
    have hf' : spentRawOf tx oid = some o := hf
    obtain ⟨h1, e, he⟩ := spentRawOf_some hf'
    refine mem_prevoutDBKeys.mpr ⟨tx, htx, inpID, hinp, ?_⟩
    rw [h1]
    exact hs

/-- Block-level form of `mem_buildTxOuts`: position, entry and
reversal-delete facts for every extracted created output. -/
theorem mem_buildOuts {b : Block} {o : rawOutput} (h : o ∈ buildOuts b) :
    ∃ tx ∈ b.transactions,
      (∃ p ∈ tx.outputs.zip tx.resultIds, o.outputID = p.2 ∧
         o.controlProgram = p.1.controlProgram) ∧
      (∃ e, tx.entries o.outputID = some (.output e)) ∧
      Op.del (AccountUTXOKey o.outputID) ∈ reverseDeleteOps b := by
  obtain ⟨tx, htx, hmem⟩ := List.mem_flatMap.mp h
  obtain ⟨hpos, hent, hdel⟩ := mem_buildTxOuts hmem
  exact ⟨tx, htx, hpos, hent,
    List.mem_flatMap.mpr ⟨tx, htx, hdel⟩⟩

/-- Every operation of the block-level delete-created stage is a delete
keyed by the result id of a created output. -/
theorem mem_reverseDeleteOps {b : Block} {op : Op}
    (h : op ∈ reverseDeleteOps b) :
    ∃ tx ∈ b.transactions, ∃ p ∈ tx.outputs.zip tx.resultIds,
      op = .del (AccountUTXOKey p.2) := by
  obtain ⟨tx, htx, hmem⟩ := List.mem_flatMap.mp h
  obtain ⟨p, hp, rfl⟩ := mem_reverseDelTx hmem
  exact ⟨tx, htx, p, hp, rfl⟩

/-- When every spend of the block resolves to an output entry, every
spent key has a restored spent output. -/
theorem prevout_mem_reverseOuts {b : Block} {oid : Hash}
    (hres : ∀ tx ∈ b.transactions, ∀ inpID ∈ tx.inputIDs,
      ∀ oid', tx.spendOf inpID = some oid' →
        ∃ e, tx.entries oid' = some (.output e))
    (h : oid ∈ prevoutDBKeys b.transactions) :
    ∃ o ∈ reverseOuts b, o.outputID = oid := by
  obtain ⟨tx, htx, inpID, hinp, hs⟩ := mem_prevoutDBKeys.mp h
  obtain ⟨e, he⟩ := hres tx htx inpID hinp oid hs
  refine ⟨{ outputID := oid
            assetId := e.assetId
            amount := e.amount
            controlProgram := e.controlProgram
            txHash := tx.id
            outputIndex := 0
            sourceID := e.sourceRef
            sourcePos := e.sourcePos
            refData := e.data }, ?_, rfl⟩
  simp only [reverseOuts, List.mem_flatMap, List.mem_filterMap]
  refine ⟨tx, htx, inpID, hinp, ?_⟩
  unfold reverseOutOf
  rw [hs]
  show spentRawOf tx oid = _
  unfold spentRawOf
  rw [he]

/-- When the restore stage succeeds, `ReverseAccountUTXOs` issues its
upserts followed by the delete-created stage. -/
theorem ReverseAccountUTXOs_eq_ok {w : Wallet} {b : Block}
    (h2 : (upsertConfirmedAccountOutputs w
      (loadAccountInfo w (reverseOuts b))).2 = none) :
    ReverseAccountUTXOs w b =
      (upsertConfirmedAccountOutputs w
        (loadAccountInfo w (reverseOuts b))).1 ++ reverseDeleteOps b := by
  have hu : upsertConfirmedAccountOutputs w
      (loadAccountInfo w (reverseOuts b)) =
      ((upsertConfirmedAccountOutputs w
        (loadAccountInfo w (reverseOuts b))).1, none) := by
    rw [← h2]
  unfold ReverseAccountUTXOs
  rw [hu]

/-- When the restore stage fails, `ReverseAccountUTXOs` stops after the
operations the upsert stage already issued: no delete is issued and no
error is returned. -/
theorem ReverseAccountUTXOs_eq_abort {w : Wallet} {b : Block} {e : String}
    (h2 : (upsertConfirmedAccountOutputs w
      (loadAccountInfo w (reverseOuts b))).2 = some e) :
    ReverseAccountUTXOs w b =
      (upsertConfirmedAccountOutputs w
        (loadAccountInfo w (reverseOuts b))).1 := by
  have hu : upsertConfirmedAccountOutputs w
      (loadAccountInfo w (reverseOuts b)) =
      ((upsertConfirmedAccountOutputs w
        (loadAccountInfo w (reverseOuts b))).1, some e) := by
    rw [← h2]
  unfold ReverseAccountUTXOs
  rw [hu]

theorem AccountUTXOKey_inj {x y : Hash}
    (h : AccountUTXOKey x = AccountUTXOKey y) : x = y := by
  simpa [AccountUTXOKey] using h

theorem isOutputEntry_of_entry {tx : Tx} {oid : Hash} {e : OutputEntry}
    (he : tx.entries oid = some (.output e)) :
    isOutputEntry tx oid = true := by
  unfold isOutputEntry
  rw [he]

theorem isOutputEntry_spec {tx : Tx} {oid : Hash}
    (h : isOutputEntry tx oid = true) :
    ∃ e, tx.entries oid = some (.output e) := by
  unfold isOutputEntry at h
  rcases he : tx.entries oid with - | e
  · rw [he] at h; cases h
  · cases e with
    | spend o => rw [he] at h; cases h
    | other => rw [he] at h; cases h
    | output resOut => exact ⟨resOut, by first | exact he | rfl⟩

theorem option_all_some {α : Type} {o : Option α} {p : α → Bool}
    (h : o.all p = true) {a : α} (ha : o = some a) : p a = true := by
  subst ha
  exact h

/-- Shape of every operation Confirmation issues: an unconditional
delete of a spent key, or a set of a marshalled owned created record. -/
theorem mem_BuildAccountUTXOs {w : Wallet} {b : Block} {op : Op}
    (h : op ∈ BuildAccountUTXOs w b) :
    (∃ oid ∈ prevoutDBKeys b.transactions,
       op = .del (AccountUTXOKey oid)) ∨
    (∃ a ∈ loadAccountInfo w (buildOuts b), ∃ v,
       w.marshalUTXO (utxoOf a) = some v ∧
       op = .set (AccountUTXOKey a.raw.outputID) v) := by
  unfold BuildAccountUTXOs at h
  rcases List.mem_append.mp h with h | h
  · obtain ⟨oid, hoid, rfl⟩ := List.mem_map.mp h
    exact Or.inl ⟨oid, hoid, rfl⟩
  · obtain ⟨a, ha, v, hv, rfl⟩ := mem_upsert_ops h
    exact Or.inr ⟨a, ha, v, hv, rfl⟩

/-! The claimed properties. -/

/-- C2: for every block and every index state, applying Confirmation
(`BuildAccountUTXOs`) twice in succession — whether the second batch is
applied after the first or both are accumulated into one batch — yields
the same final set of persisted UTXO records as applying it once. The
operations issued depend only on the wallet's registry view and the
block, never on the index state, so both runs issue the same batch. -/
theorem BuildAccountUTXOs_idempotent (w : Wallet) (b : Block)
    (S : IndexState) (k : DBKey) :
    applyOps (BuildAccountUTXOs w b) (applyOps (BuildAccountUTXOs w b) S) k
      = applyOps (BuildAccountUTXOs w b) S k ∧
    applyOps (BuildAccountUTXOs w b ++ BuildAccountUTXOs w b) S k
      = applyOps (BuildAccountUTXOs w b) S k := by
  refine ⟨applyOps_idem _ _ _, ?_⟩
  rw [applyOps_append]
  exact applyOps_idem _ _ _

/-- C5: during Confirmation, every output id spent by any input of any
transaction of the block receives a delete keyed by it, for every
wallet environment alike (ownership is never consulted), and applying a
delete to a state where the key is absent is a no-op, not an error. -/
theorem BuildAccountUTXOs_deletes_spent {w : Wallet} {b : Block}
    {tx : Tx} {inpID oid : Hash}
    (htx : tx ∈ b.transactions) (hinp : inpID ∈ tx.inputIDs)
    (hsp : tx.spendOf inpID = some oid) :
    Op.del (AccountUTXOKey oid) ∈ BuildAccountUTXOs w b ∧
    ∀ S : IndexState, S (AccountUTXOKey oid) = none →
      applyOp S (Op.del (AccountUTXOKey oid)) = S := by
  constructor
  · unfold BuildAccountUTXOs
    refine List.mem_append.mpr (Or.inl (List.mem_map.mpr ⟨oid, ?_, rfl⟩))
    exact mem_prevoutDBKeys.mpr ⟨tx, htx, inpID, hinp, hsp⟩
  · intro S hS
    funext k'
    show (if k' = AccountUTXOKey oid then none else S k') = S k'
    by_cases hk : k' = AccountUTXOKey oid
    · rw [if_pos hk, hk, hS]
    · rw [if_neg hk]

/-- C5 witness: in the concrete block `bC1`, input 10 spends output 20
and Confirmation issues the delete for key 20. -/
theorem BuildAccountUTXOs_deletes_spent_witness :
    txC1 ∈ bC1.transactions ∧ (10 : Hash) ∈ txC1.inputIDs ∧
    txC1.spendOf 10 = some 20 ∧
    (Op.del (AccountUTXOKey 20) ∈ BuildAccountUTXOs wC1 bC1 ∧
     ∀ S : IndexState, S (AccountUTXOKey 20) = none →
       applyOp S (Op.del (AccountUTXOKey 20)) = S) :=
  ⟨List.mem_cons_self _ _, by decide, by decide,
   @BuildAccountUTXOs_deletes_spent wC1 bC1 txC1 10 20
     (List.mem_cons_self _ _) (by decide) (by decide)⟩

/-- C4: a created output whose control-program script hashes to no
registry entry never has a persisted record written for its output id
during Confirmation, regardless of its asset or amount (the statement
quantifies over arbitrary marshalled values). Output ids are
content-addressed, so distinct created outputs carry distinct ids;
the `huniq` hypothesis states this. -/
theorem BuildAccountUTXOs_skips_unregistered {w : Wallet} {b : Block}
    {o : rawOutput}
    (_ho : o ∈ buildOuts b)
    (hmiss : w.cpGet (w.hashFn o.controlProgram) = none)
    (huniq : ∀ o' ∈ buildOuts b, o'.outputID = o.outputID →
      o'.controlProgram = o.controlProgram) :
    ∀ v, Op.set (AccountUTXOKey o.outputID) v ∉ BuildAccountUTXOs w b := by
  intro v hset
  rcases mem_BuildAccountUTXOs hset with ⟨oid, -, heq⟩ | ⟨a, ha, v', -, heq⟩
  · cases heq
  · injection heq with h1 h2
    have hscr := huniq a.raw (mem_loadAccountInfo_raw ha)
      (AccountUTXOKey_inj h1).symm
    obtain ⟨p, hp⟩ := mem_loadAccountInfo_cpGet ha
    rw [hscr, hmiss] at hp
    cases hp

/-- C4 witness: block `bC4` creates output 200 under script `[9]`,
which wallet `wC1` does not track; no set for key 200 is issued. -/
theorem BuildAccountUTXOs_skips_unregistered_witness :
    ({ outputID := 200, assetId := 7, amount := 3, controlProgram := [9]
       txHash := 2, outputIndex := 0, sourceID := 2, sourcePos := 0
       refData := 0 } : rawOutput) ∈ buildOuts bC4 ∧
    wC1.cpGet (wC1.hashFn [9]) = none ∧
    Op.set (AccountUTXOKey 200) [9, 9] ∉ BuildAccountUTXOs wC1 bC4 :=
  ⟨by decide, by decide,
   @BuildAccountUTXOs_skips_unregistered wC1 bC4
     { outputID := 200, assetId := 7, amount := 3, controlProgram := [9]
       txHash := 2, outputIndex := 0, sourceID := 2, sourcePos := 0
       refData := 0 }
     (by decide) (by decide) (by decide) [9, 9]⟩

/-- C6: a transaction result id whose entry is not the genuine
payment-output variant (a retirement) is never extracted as a created
output and never indexed by Confirmation, for every wallet environment
— even one whose registry tracks the retirement's script. -/
theorem BuildAccountUTXOs_skips_retirements {w : Wallet} {b : Block}
    {rid : Hash}
    (hret : ∀ tx ∈ b.transactions, isOutputEntry tx rid = false) :
    (∀ o ∈ buildOuts b, o.outputID ≠ rid) ∧
    ∀ v, Op.set (AccountUTXOKey rid) v ∉ BuildAccountUTXOs w b := by
  have hno : ∀ o ∈ buildOuts b, o.outputID ≠ rid := by
    intro o ho hid
    obtain ⟨tx, htx, -, ⟨e, he⟩, -⟩ := mem_buildOuts ho
    rw [hid] at he
    have hfalse := hret tx htx
    rw [isOutputEntry_of_entry he] at hfalse
    cases hfalse
  refine ⟨hno, ?_⟩
  intro v hset
  rcases mem_BuildAccountUTXOs hset with ⟨oid, -, heq⟩ | ⟨a, ha, v', -, heq⟩
  · cases heq
  · injection heq with h1 h2
    exact hno a.raw (mem_loadAccountInfo_raw ha) (AccountUTXOKey_inj h1).symm

/-- C6 witness: block `bC6`'s only result entry, id 300, is a
retirement under the tracked script `[1]`; it is neither extracted nor
indexed by wallet `wC1`. -/
theorem BuildAccountUTXOs_skips_retirements_witness :
    (∀ tx ∈ bC6.transactions, isOutputEntry tx 300 = false) ∧
    (∀ o ∈ buildOuts bC6, o.outputID ≠ 300) ∧
    Op.set (AccountUTXOKey 300) [4] ∉ BuildAccountUTXOs wC1 bC6 :=
  ⟨by decide,
   (@BuildAccountUTXOs_skips_retirements wC1 bC6 300 (by decide)).1,
   (@BuildAccountUTXOs_skips_retirements wC1 bC6 300 (by decide)).2 [4]⟩

/-- C7: in one resolution pass, any two outputs carrying byte-identical
control-program scripts are annotated with identical ownership
metadata; the loop body visits each distinct script exactly once (the
iteration domain is duplicate-free), so the metadata comes from a
single registry lookup for that script. -/
theorem loadAccountInfo_grouping {w : Wallet} {outs : List rawOutput}
    {a1 a2 : accountOutput}
    (h1 : a1 ∈ loadAccountInfo w outs) (h2 : a2 ∈ loadAccountInfo w outs)
    (hsc : a1.raw.controlProgram = a2.raw.controlProgram) :
    (a1.accountID = a2.accountID ∧ a1.keyIndex = a2.keyIndex ∧
       a1.change = a2.change) ∧
    (dedupFirst (outs.map fun o => o.controlProgram)).Nodup :=
  ⟨loadLoop_meta_nodup (nodup_dedupFirst _) h1 h2 hsc,
   nodup_dedupFirst _⟩

/-- C7 witness: two distinct outputs under script `[1]` resolve to the
same metadata in wallet `wC10`. -/
theorem loadAccountInfo_grouping_witness :
    ({ raw := oX, accountID := "A", keyIndex := 5, change := true } :
       accountOutput) ∈ loadAccountInfo wC10 [oX, oX2] ∧
    ({ raw := oX2, accountID := "A", keyIndex := 5, change := true } :
       accountOutput) ∈ loadAccountInfo wC10 [oX, oX2] ∧
    (("A" : String) = "A" ∧ (5 : Nat) = 5 ∧ true = true) ∧
    (dedupFirst ([oX, oX2].map fun o => o.controlProgram)).Nodup :=
  ⟨by decide, by decide,
   (@loadAccountInfo_grouping wC10 [oX, oX2]
     { raw := oX, accountID := "A", keyIndex := 5, change := true }
     { raw := oX2, accountID := "A", keyIndex := 5, change := true }
     (by decide) (by decide) (by decide)).1,
   (@loadAccountInfo_grouping wC10 [oX, oX2]
     { raw := oX, accountID := "A", keyIndex := 5, change := true }
     { raw := oX2, accountID := "A", keyIndex := 5, change := true }
     (by decide) (by decide) (by decide)).2⟩

/-- C8 counterexample: in wallet `wBadLeak`, script `[1]`'s registry
value fails to decode, but the decoder writes the well-typed key index
9 into the reused variable before erroring. Every output under script
`[1]` is excluded and no error is raised, yet the pass does not equal
the pass with that entry absent: script `[2]`'s record omits its key
index, so its output inherits key index 9 from the failed decode's
residue, against key index 0 under a true lookup miss. A failing decode
is therefore not treated identically to a lookup miss. -/
theorem loadAccountInfo_bad_not_miss :
    wBadLeak.cpGet 1 =
      some (.bad { accountID := none, keyIndex := some 9
                   change := none }) ∧
    (∀ a ∈ loadAccountInfo wBadLeak [oX, oY],
       wBadLeak.hashFn a.raw.controlProgram ≠ 1) ∧
    loadAccountInfo wBadLeak [oX, oY] =
      [{ raw := oY, accountID := "B", keyIndex := 9, change := false }] ∧
    loadAccountInfo
        { wBadLeak with
          cpGet := fun h => if h = 1 then none else wBadLeak.cpGet h }
        [oX, oY] =
      [{ raw := oY, accountID := "B", keyIndex := 0, change := false }] ∧
    loadAccountInfo wBadLeak [oX, oY] ≠
      loadAccountInfo
        { wBadLeak with
          cpGet := fun h => if h = 1 then none else wBadLeak.cpGet h }
        [oX, oY] := by
  decide

/-- C8 amended: a registry value that fails to decode silently excludes
every output whose script hashes to it — no annotated output carries
such a script — no error is raised, and resolution continues with the
remaining scripts: any other script whose record decodes with all
fields and whose account exists is still annotated. The pass equals the
pass with the bad entry absent when the failing decode wrote no fields
(a syntax error); in general the fields it wrote persist in the reused
decode variable and can leak into a later script's incomplete record,
so a decode failure is not extensionally a lookup miss. -/
theorem loadAccountInfo_bad_decode {w : Wallet} {outs : List rawOutput}
    {h0 : Hash} {p : RegCP} (hbad : w.cpGet h0 = some (.bad p)) :
    (∀ a ∈ loadAccountInfo w outs, w.hashFn a.raw.controlProgram ≠ h0) ∧
    (p = { accountID := none, keyIndex := none, change := none } →
      loadAccountInfo w outs =
        loadAccountInfo
          { w with cpGet := fun h => if h = h0 then none else w.cpGet h }
          outs) ∧
    (∀ s aid ki ch, w.cpGet (w.hashFn s) =
        some (.good { accountID := some aid, keyIndex := some ki
                      change := some ch }) →
      w.acctExists aid = true → ∀ o ∈ outs, o.controlProgram = s →
        ({ raw := o, accountID := aid, keyIndex := ki, change := ch } :
          accountOutput) ∈ loadAccountInfo w outs) := by
  refine ⟨?_, ?_, ?_⟩
  · intro a ha hh
    obtain ⟨q, hq⟩ := mem_loadAccountInfo_cpGet ha
    rw [hh, hbad] at hq
    cases hq
  · intro hp
    subst hp
    unfold loadAccountInfo
    exact loadLoop_bad_empty_eq_miss hbad _ _
  · intro s aid ki ch hreg hex o ho hsc
    refine loadLoop_complete_mem hreg hex ?_ ho hsc
    exact mem_dedupFirst.mpr (List.mem_map.mpr ⟨o, ho, hsc⟩)

/-- C8 witness: wallet `wBadEmpty` stores a syntactically invalid value
for script hash 2; outputs under script `[2]` are excluded identically
to a lookup miss, and script `[1]`'s outputs still resolve. -/
theorem loadAccountInfo_bad_decode_witness :
    wBadEmpty.cpGet 2 =
      some (.bad { accountID := none, keyIndex := none
                   change := none }) ∧
    ((∀ a ∈ loadAccountInfo wBadEmpty [oX, oY],
        wBadEmpty.hashFn a.raw.controlProgram ≠ 2) ∧
     (({ accountID := none, keyIndex := none, change := none } : RegCP) =
        { accountID := none, keyIndex := none, change := none } →
       loadAccountInfo wBadEmpty [oX, oY] =
         loadAccountInfo
           { wBadEmpty with
             cpGet := fun h => if h = 2 then none else wBadEmpty.cpGet h }
           [oX, oY]) ∧
     (∀ s aid ki ch, wBadEmpty.cpGet (wBadEmpty.hashFn s) =
         some (.good { accountID := some aid, keyIndex := some ki
                       change := some ch }) →
       wBadEmpty.acctExists aid = true → ∀ o ∈ [oX, oY],
         o.controlProgram = s →
         ({ raw := o, accountID := aid, keyIndex := ki, change := ch } :
           accountOutput) ∈ loadAccountInfo wBadEmpty [oX, oY])) :=
  ⟨by decide,
   @loadAccountInfo_bad_decode wBadEmpty [oX, oY] 2
     { accountID := none, keyIndex := none, change := none }
     (by decide)⟩

/-- C9: an annotated output's type is `retire` exactly when the
unspendable-script predicate holds of its control program and `control`
otherwise, and reference data that is not well-formed is replaced by
the empty-object sentinel (well-formed reference data is kept as is). -/
theorem buildAnnotatedOutput_classifies {env : QueryEnv} {tx : Tx}
    {idx : Nat} {orig : TxOutput} {out : AnnotatedOutput}
    (ho : tx.outputs.get? idx = some orig)
    (hb : buildAnnotatedOutput env tx idx = some out) :
    (out.type = "retire" ↔ env.isUnspendable orig.controlProgram = true) ∧
    (out.type = "control" ↔
       env.isUnspendable orig.controlProgram = false) ∧
    (IsValidJSON env orig.referenceData = false →
       out.referenceData = emptyJSONObject) ∧
    (IsValidJSON env orig.referenceData = true →
       out.referenceData = orig.referenceData) := by
  unfold buildAnnotatedOutput at hb
  rw [ho] at hb
  rcases hr : tx.resultIds.get? idx with - | outid
  · rw [hr] at hb; cases hb
  · rw [hr] at hb
    cases hb
    by_cases hu : env.isUnspendable orig.controlProgram
    · by_cases hj : IsValidJSON env orig.referenceData
      · refine ⟨?_, ?_, ?_, ?_⟩ <;> simp [hu, hj]
      · refine ⟨?_, ?_, ?_, ?_⟩ <;> simp [hu, hj]
    · by_cases hj : IsValidJSON env orig.referenceData
      · refine ⟨?_, ?_, ?_, ?_⟩ <;> simp [hu, hj]
      · refine ⟨?_, ?_, ?_, ?_⟩ <;> simp [hu, hj]

/-- C9 witness: in `txQ` the single output's script satisfies the
unspendable predicate and its reference data is invalid; the annotation
is typed `retire` and carries the empty-object sentinel. -/
theorem buildAnnotatedOutput_classifies_witness :
    txQ.outputs.get? 0 =
      some { assetId := 7, amount := 3, controlProgram := [106]
             referenceData := [] } ∧
    buildAnnotatedOutput envQ txQ 0 =
      some { type := "retire", outputID := 55, position := 0
             assetID := 7, amount := 3, controlProgram := [106]
             referenceData := emptyJSONObject } ∧
    (("retire" : String) = "retire" ↔
       envQ.isUnspendable [106] = true) ∧
    (IsValidJSON envQ [] = false →
       (emptyJSONObject : Bytes) = emptyJSONObject) :=
  ⟨by decide, by decide,
   (@buildAnnotatedOutput_classifies envQ txQ 0
     { assetId := 7, amount := 3, controlProgram := [106]
       referenceData := [] }
     { type := "retire", outputID := 55, position := 0, assetID := 7
       amount := 3, controlProgram := [106]
       referenceData := emptyJSONObject }
     (by decide) (by decide)).1,
   fun h => rfl⟩

/-- C10 counterexample: wallet `wC10` is fixed, so script `[2]`'s
registry record and account entry agree between the two runs, yet
output `oY` (script `[2]`) is annotated with key index 0 when resolved
alone and with key index 5 when script `[1]` appears in the same batch:
the decode variable is declared once and reused, so a record omitting a
field inherits the value decoded for another script's record. -/
theorem loadAccountInfo_not_batch_independent :
    loadAccountInfo wC10 [oY] =
      [{ raw := oY, accountID := "B", keyIndex := 0, change := false }] ∧
    loadAccountInfo wC10 [oX, oY] =
      [{ raw := oX, accountID := "A", keyIndex := 5, change := true },
       { raw := oY, accountID := "B", keyIndex := 5, change := true }] ∧
    ¬ (∀ a1 ∈ loadAccountInfo wC10 [oY],
        ∀ a2 ∈ loadAccountInfo wC10 [oX, oY], a1.raw = a2.raw →
          a1.accountID = a2.accountID ∧ a1.keyIndex = a2.keyIndex ∧
            a1.change = a2.change) := by
  decide

/-- C10 amended: when a script's registry record decodes with all three
metadata fields present, the ownership metadata attached to that
script's outputs is determined solely by that record and the account
existence entry: in every input batch, every annotated output carrying
the script gets exactly the record's fields, and when the account
exists every batch output carrying the script is annotated — other
scripts in the batch and their registry records have no influence. -/
theorem loadAccountInfo_record_determines {w : Wallet} {s : Bytes}
    {aid : String} {ki : Nat} {ch : Bool}
    (hreg : w.cpGet (w.hashFn s) =
      some (.good { accountID := some aid, keyIndex := some ki
                    change := some ch })) :
    ∀ outs : List rawOutput,
      (∀ a ∈ loadAccountInfo w outs, a.raw.controlProgram = s →
        a.accountID = aid ∧ a.keyIndex = ki ∧ a.change = ch) ∧
      (w.acctExists aid = true → ∀ o ∈ outs, o.controlProgram = s →
        ({ raw := o, accountID := aid, keyIndex := ki, change := ch } :
          accountOutput) ∈ loadAccountInfo w outs) := by
  intro outs
  constructor
  · intro a ha hsc
    exact loadLoop_complete_meta hreg ha hsc
  · intro hex o ho hsc
    refine loadLoop_complete_mem hreg hex ?_ ho hsc
    exact mem_dedupFirst.mpr (List.mem_map.mpr ⟨o, ho, hsc⟩)

/-- C10 witness: script `[1]`'s record in `wC10` is complete, so its
outputs always resolve to account `A`, key index 5, change. -/
theorem loadAccountInfo_record_determines_witness :
    wC10.cpGet (wC10.hashFn [1]) =
      some (.good { accountID := some "A", keyIndex := some 5
                    change := some true }) ∧
    ((∀ a ∈ loadAccountInfo wC10 [oX, oY], a.raw.controlProgram = [1] →
        a.accountID = "A" ∧ a.keyIndex = 5 ∧ a.change = true) ∧
     (wC10.acctExists "A" = true → ∀ o ∈ [oX, oY],
        o.controlProgram = [1] →
        ({ raw := o, accountID := "A", keyIndex := 5, change := true } :
          accountOutput) ∈ loadAccountInfo wC10 [oX, oY])) :=
  ⟨by decide,
   @loadAccountInfo_record_determines wC10 [1] "A" 5 true (by decide)
     [oX, oY]⟩

/-- C3 counterexample: with wallet `wFail` every record fails to
marshal, so reversing `bC1` aborts with the marshal error — yet the
call returns exactly the batch a successful run under wallet `wMiss`
returns: `ReverseAccountUTXOs` surfaces no error, so the caller
cannot refuse to commit on the strength of this call's result. -/
theorem ReverseAccountUTXOs_swallows_error :
    (upsertConfirmedAccountOutputs wFail
      (loadAccountInfo wFail (reverseOuts bC1))).2 =
        some "failed marshal accountutxo" ∧
    (upsertConfirmedAccountOutputs wMiss
      (loadAccountInfo wMiss (reverseOuts bC1))).2 = none ∧
    ReverseAccountUTXOs wFail bC1 = ReverseAccountUTXOs wMiss bC1 := by
  decide

/-- C3 amended: if encoding a restored record fails during Reversal,
the call aborts the remaining work — the unconditional deletes of the
block's created outputs are not issued, and the batch holds only the
sets issued before the failure — but the error is logged and swallowed
rather than propagated: the function returns only batch operations and
no error value reaches the caller. -/
theorem ReverseAccountUTXOs_abort {w : Wallet} {b : Block} {e : String}
    (h2 : (upsertConfirmedAccountOutputs w
      (loadAccountInfo w (reverseOuts b))).2 = some e) :
    ReverseAccountUTXOs w b =
      (upsertConfirmedAccountOutputs w
        (loadAccountInfo w (reverseOuts b))).1 ∧
    ∀ k, Op.del k ∉ ReverseAccountUTXOs w b := by
  refine ⟨ReverseAccountUTXOs_eq_abort h2, ?_⟩
  intro k hdel
  rw [ReverseAccountUTXOs_eq_abort h2] at hdel
  obtain ⟨a, -, v, -, heq⟩ := mem_upsert_ops hdel
  cases heq

/-- C1 counterexample: in block `bC1` the only ledger event is a spend
of output 20, owned by tracked account `A` — every output the block
creates or spends resolves through the registry — yet starting from
index `SC1`, whose pre-existing record at the spent key holds the bytes
99, Confirmation followed by Reversal leaves the re-derived bytes 7 at
that key: a pre-existing record is not restored unchanged, because
Reversal rebuilds records from the ledger and the current registry
rather than from what the index previously held. -/
theorem roundtrip_not_exact :
    (∀ tx ∈ bC1.transactions, ∀ inpID ∈ tx.inputIDs,
      (tx.spendOf inpID).all (fun oid => isOutputEntry tx oid) = true) ∧
    (∀ o ∈ reverseOuts bC1,
      ∃ a ∈ loadAccountInfo wC1 (reverseOuts bC1), a.raw = o) ∧
    (∀ o ∈ buildOuts bC1,
      ∃ a ∈ loadAccountInfo wC1 (buildOuts bC1), a.raw = o) ∧
    SC1 (AccountUTXOKey 20) = some [99] ∧
    applyOps (ReverseAccountUTXOs wC1 bC1)
      (applyOps (BuildAccountUTXOs wC1 bC1) SC1)
      (AccountUTXOKey 20) = some [7] := by
  decide

/-- C1 amended: for a block whose created and spent outputs are all
owned by tracked accounts, Reversal after Confirmation restores the
pre-block index — every pre-existing record present and unchanged, no
record for a created output remaining — provided the pre-block index
agrees with the ledger: its record at each spent key equals the
serialization Reversal re-derives for it, and it holds no record keyed
by an output the block creates. Record serialization is total, as
`json.Marshal` of the record struct is in Go. -/
theorem confirmation_reversal_roundtrip {w : Wallet} {b : Block}
    {S : IndexState}
    (hm : ∀ u, (w.marshalUTXO u).isSome = true)
    (hres : ∀ tx ∈ b.transactions, ∀ inpID ∈ tx.inputIDs,
      (tx.spendOf inpID).all (fun oid => isOutputEntry tx oid) = true)
    (_hcrowned : ∀ o ∈ buildOuts b,
      ∃ a ∈ loadAccountInfo w (buildOuts b), a.raw = o)
    (howned : ∀ o ∈ reverseOuts b,
      ∃ a ∈ loadAccountInfo w (reverseOuts b), a.raw = o)
    (hconsist : ∀ a ∈ loadAccountInfo w (reverseOuts b),
      S (AccountUTXOKey a.raw.outputID) = w.marshalUTXO (utxoOf a))
    (hcreated : ∀ tx ∈ b.transactions, ∀ p ∈ tx.outputs.zip tx.resultIds,
      S (AccountUTXOKey p.2) = none) :
    (∀ k v, S k = some v →
      applyOps (ReverseAccountUTXOs w b)
        (applyOps (BuildAccountUTXOs w b) S) k = some v) ∧
    (∀ tx ∈ b.transactions, ∀ p ∈ tx.outputs.zip tx.resultIds,
      applyOps (ReverseAccountUTXOs w b)
        (applyOps (BuildAccountUTXOs w b) S)
        (AccountUTXOKey p.2) = none) := by
  have hres' : ∀ tx ∈ b.transactions, ∀ inpID ∈ tx.inputIDs,
      ∀ oid, tx.spendOf inpID = some oid →
        ∃ e, tx.entries oid = some (.output e) := by
    intro tx htx inpID hinp oid hsp
    exact isOutputEntry_spec (option_all_some (hres tx htx inpID hinp) hsp)
  have hmr : ∀ a ∈ loadAccountInfo w (reverseOuts b),
      (w.marshalUTXO (utxoOf a)).isSome = true := fun a _ => hm _
  have herr := upsert_err_none hmr
  have hrev := ReverseAccountUTXOs_eq_ok herr
  have hbld : BuildAccountUTXOs w b =
      ((prevoutDBKeys b.transactions).map fun oid =>
        Op.del (AccountUTXOKey oid)) ++
      (upsertConfirmedAccountOutputs w
        (loadAccountInfo w (buildOuts b))).1 := rfl
  have hsplit : ∀ k, applyOps (ReverseAccountUTXOs w b)
      (applyOps (BuildAccountUTXOs w b) S) k =
      applyOps (reverseDeleteOps b)
        (applyOps (upsertConfirmedAccountOutputs w
            (loadAccountInfo w (reverseOuts b))).1
          (applyOps (upsertConfirmedAccountOutputs w
              (loadAccountInfo w (buildOuts b))).1
            (applyOps ((prevoutDBKeys b.transactions).map fun oid =>
                Op.del (AccountUTXOKey oid)) S))) k := by
    intro k
    rw [hrev, hbld, applyOps_append, applyOps_append]
  constructor
  · -- every pre-existing record survives unchanged
    intro k v hk
    rw [hsplit]
    by_cases hsp : ∃ oid ∈ prevoutDBKeys b.transactions,
      k = AccountUTXOKey oid
    · obtain ⟨oid, hoidm, rfl⟩ := hsp
      obtain ⟨o, hom, hoid⟩ := prevout_mem_reverseOuts hres' hoidm
      obtain ⟨a, ham, haraw⟩ := howned o hom
      have haid : a.raw.outputID = oid := by rw [haraw, hoid]
      have hSm : S (AccountUTXOKey oid) = w.marshalUTXO (utxoOf a) := by
        rw [← haid]
        exact hconsist a ham
      have hmv : w.marshalUTXO (utxoOf a) = some v := by
        rw [← hSm]
        exact hk
      have hset : Op.set (AccountUTXOKey oid) v ∈
          (upsertConfirmedAccountOutputs w
            (loadAccountInfo w (reverseOuts b))).1 := by
        have hs := upsert_set_mem hmr ham hmv
        rw [haid] at hs
        exact hs
      have huniq : ∀ op ∈ (upsertConfirmedAccountOutputs w
          (loadAccountInfo w (reverseOuts b))).1,
          opKey op = AccountUTXOKey oid →
            op = Op.set (AccountUTXOKey oid) v := by
        intro op hop hke
        obtain ⟨a', ha', v', hv', rfl⟩ := mem_upsert_ops hop
        have hke' : AccountUTXOKey a'.raw.outputID = AccountUTXOKey oid :=
          hke
        have h1 : S (AccountUTXOKey oid) = some v' := by
          rw [← hke']
          rw [hconsist a' ha']
          exact hv'
        have h2 : some v = some v' := by
          rw [← hk, ← h1]
        injection h2 with h2'
        rw [hke', ← h2']
      have hD2no : ∀ op ∈ reverseDeleteOps b,
          opKey op ≠ AccountUTXOKey oid := by
        intro op hop hke
        obtain ⟨tx, htx, p, hp, rfl⟩ := mem_reverseDeleteOps hop
        have hke' : AccountUTXOKey p.2 = AccountUTXOKey oid := hke
        have hnone := hcreated tx htx p hp
        rw [hke'] at hnone
        rw [hnone] at hk
        cases hk
      rw [applyOps_untouched hD2no]
      exact applyOps_sets_last huniq hset _
    · have hnotc : ∀ tx ∈ b.transactions,
          ∀ p ∈ tx.outputs.zip tx.resultIds, AccountUTXOKey p.2 ≠ k := by
        intro tx htx p hp hke
        have hnone := hcreated tx htx p hp
        rw [hke, hk] at hnone
        cases hnone
      have hD1no : ∀ op ∈ (prevoutDBKeys b.transactions).map fun oid =>
          Op.del (AccountUTXOKey oid), opKey op ≠ k := by
        intro op hop hke
        obtain ⟨oid, hoidm, rfl⟩ := List.mem_map.mp hop
        exact hsp ⟨oid, hoidm, hke.symm⟩
      have hX1no : ∀ op ∈ (upsertConfirmedAccountOutputs w
          (loadAccountInfo w (buildOuts b))).1, opKey op ≠ k := by
        intro op hop hke
        obtain ⟨a, ha, v', hv', rfl⟩ := mem_upsert_ops hop
        obtain ⟨tx, htx, ⟨p, hp, hid, -⟩, -, -⟩ :=
          mem_buildOuts (mem_loadAccountInfo_raw ha)
        refine hnotc tx htx p hp ?_
        rw [← hid]
        exact hke
      have hX2no : ∀ op ∈ (upsertConfirmedAccountOutputs w
          (loadAccountInfo w (reverseOuts b))).1, opKey op ≠ k := by
        intro op hop hke
        obtain ⟨a, ha, v', hv', rfl⟩ := mem_upsert_ops hop
        exact hsp ⟨a.raw.outputID,
          mem_reverseOuts_prevout (mem_loadAccountInfo_raw ha), hke.symm⟩
      have hD2no : ∀ op ∈ reverseDeleteOps b, opKey op ≠ k := by
        intro op hop hke
        obtain ⟨tx, htx, p, hp, rfl⟩ := mem_reverseDeleteOps hop
        exact hnotc tx htx p hp hke
      rw [applyOps_untouched hD2no, applyOps_untouched hX2no,
          applyOps_untouched hX1no, applyOps_untouched hD1no]
      exact hk
  · -- no record for a created output remains
    intro tx htx p hp
    rw [hsplit]
    have hknone := hcreated tx htx p hp
    by_cases hd : Op.del (AccountUTXOKey p.2) ∈ reverseDeleteOps b
    · have halld : ∀ op ∈ reverseDeleteOps b, ∃ k', op = .del k' := by
        intro op hop
        obtain ⟨tx', htx', p', hp', rfl⟩ := mem_reverseDeleteOps hop
        exact ⟨_, rfl⟩
      exact applyOps_del_mem_none halld hd _
    · have s1 : applyOps ((prevoutDBKeys b.transactions).map fun oid =>
          Op.del (AccountUTXOKey oid)) S (AccountUTXOKey p.2) = none := by
        refine applyOps_dels_none ?_ _ hknone
        intro op hop
        obtain ⟨oid, -, rfl⟩ := List.mem_map.mp hop
        exact ⟨_, rfl⟩
      have hX1no : ∀ op ∈ (upsertConfirmedAccountOutputs w
          (loadAccountInfo w (buildOuts b))).1,
          opKey op ≠ AccountUTXOKey p.2 := by
        intro op hop hke
        obtain ⟨a, ha, v, hv, rfl⟩ := mem_upsert_ops hop
        obtain ⟨tx', htx', -, -, hdel⟩ :=
          mem_buildOuts (mem_loadAccountInfo_raw ha)
        have hke' : AccountUTXOKey a.raw.outputID = AccountUTXOKey p.2 :=
          hke
        rw [hke'] at hdel
        exact hd hdel
      have hX2no : ∀ op ∈ (upsertConfirmedAccountOutputs w
          (loadAccountInfo w (reverseOuts b))).1,
          opKey op ≠ AccountUTXOKey p.2 := by
        intro op hop hke
        obtain ⟨a, ha, v, hv, rfl⟩ := mem_upsert_ops hop
        have hke' : AccountUTXOKey a.raw.outputID = AccountUTXOKey p.2 :=
          hke
        have hcs := hconsist a ha
        rw [hke', hknone, hv] at hcs
        cases hcs
      have hD2no : ∀ op ∈ reverseDeleteOps b,
          opKey op ≠ AccountUTXOKey p.2 := by
        intro op hop hke
        obtain ⟨tx', htx', p', hp', rfl⟩ := mem_reverseDeleteOps hop
        have hke' : AccountUTXOKey p'.2 = AccountUTXOKey p.2 := hke
        rw [hke'] at hop
        exact hd hop
      rw [applyOps_untouched hD2no, applyOps_untouched hX2no,
          applyOps_untouched hX1no]
      exact s1

/-- C1 witness: block `bRT` spends output 20 and creates output 30,
both under the tracked script; starting from the consistent index
`SRT`, the hypotheses hold and the round trip restores the record at
key 20 and leaves no record at key 30. -/
theorem confirmation_reversal_roundtrip_witness :
    (∀ u, (wC1.marshalUTXO u).isSome = true) ∧
    (∀ tx ∈ bRT.transactions, ∀ inpID ∈ tx.inputIDs,
      (tx.spendOf inpID).all (fun oid => isOutputEntry tx oid) = true) ∧
    SRT (AccountUTXOKey 20) = some [7] ∧
    ((∀ k v, SRT k = some v →
       applyOps (ReverseAccountUTXOs wC1 bRT)
         (applyOps (BuildAccountUTXOs wC1 bRT) SRT) k = some v) ∧
     (∀ tx ∈ bRT.transactions, ∀ p ∈ tx.outputs.zip tx.resultIds,
       applyOps (ReverseAccountUTXOs wC1 bRT)
         (applyOps (BuildAccountUTXOs wC1 bRT) SRT)
         (AccountUTXOKey p.2) = none)) :=
  ⟨fun u => rfl, by decide, by decide,
   @confirmation_reversal_roundtrip wC1 bRT SRT (fun u => rfl)
     (by decide) (by decide) (by decide) (by decide) (by decide)⟩

/-- C3 witness: the abort behavior at the concrete failing wallet. -/
theorem ReverseAccountUTXOs_abort_witness :
    (upsertConfirmedAccountOutputs wFail
      (loadAccountInfo wFail (reverseOuts bC1))).2 =
        some "failed marshal accountutxo" ∧
    (ReverseAccountUTXOs wFail bC1 =
      (upsertConfirmedAccountOutputs wFail
        (loadAccountInfo wFail (reverseOuts bC1))).1 ∧
     ∀ k, Op.del k ∉ ReverseAccountUTXOs wFail bC1) :=
  ⟨by decide,
   @ReverseAccountUTXOs_abort wFail bC1 "failed marshal accountutxo"
     (by decide)⟩

end Bytom
